import Mathlib

/-
Verification of the session/cookie persistence helper described by the
repository specification, as implemented by the scripts
src/docs/node-mjs/playwright/cookie.py, link.py and html.py.

The scripts are linear sequences of calls into the Playwright engine plus
Python's json module.  The embedding below models:
  * the JSON serialization layer as Python's json.dump / json.load behave
    with default options: separators ", " / ": ", ensure_ascii escaping,
    the number grammar (no leading zeros; fraction, exponent, NaN and
    Infinity literals are accepted and carried as opaque numeric tokens,
    since no claim depends on float arithmetic), and string values as
    sequences of unicode code points, which like Python str may contain
    lone surrogates;
  * the file system as an association list from paths to file contents;
  * the Browsing Engine (contexts, pages, cookie jars) from the spec, since
    the engine is an external collaborator and not part of the repository.
-/

set_option linter.unusedVariables false

/-! ## Characters and low-level text helpers -/

/-- Decimal digit character for a value below ten. -/
def digitChar (m : Nat) : Char :=
  match m with
  | 0 => '0' | 1 => '1' | 2 => '2' | 3 => '3' | 4 => '4'
  | 5 => '5' | 6 => '6' | 7 => '7' | 8 => '8' | _ => '9'

/-- Lower-case hexadecimal digit character, as Python json emits in escapes. -/
def hexDigitChar (m : Nat) : Char :=
  match m with
  | 0 => '0' | 1 => '1' | 2 => '2' | 3 => '3' | 4 => '4'
  | 5 => '5' | 6 => '6' | 7 => '7' | 8 => '8' | 9 => '9'
  | 10 => 'a' | 11 => 'b' | 12 => 'c' | 13 => 'd' | 14 => 'e' | _ => 'f'

/-- Value of a hexadecimal digit character (json.load accepts both cases). -/
def hexVal (c : Char) : Option Nat :=
  let n := c.toNat
  if 48 ≤ n ∧ n ≤ 57 then some (n - 48)
  else if 97 ≤ n ∧ n ≤ 102 then some (n - 87)
  else if 65 ≤ n ∧ n ≤ 70 then some (n - 55)
  else none

/-- Decimal digit test, as a predicate on the code point. -/
def isDigitB (c : Char) : Bool := 48 ≤ c.toNat && c.toNat ≤ 57

/-- Value of a decimal digit character. -/
def digitVal (c : Char) : Nat := c.toNat - 48

/-- JSON whitespace: space, tab, line feed, carriage return. -/
def isWsB (c : Char) : Bool :=
  c.toNat = 32 || c.toNat = 9 || c.toNat = 10 || c.toNat = 13

/-- Opening curly bracket character. -/
def lbrace : Char := Char.ofNat 123

/-- Closing curly bracket character. -/
def rbrace : Char := Char.ofNat 125

/-- A unicode scalar value: a code point that is not a surrogate.  Python
str may additionally hold lone surrogates; this predicate marks the points
that are also representable as Lean characters. -/
def okPoint (n : Nat) : Bool :=
  decide (n < 55296) || (decide (57344 ≤ n) && decide (n < 1114112))

/-- The code points of a Lean string. -/
def strPts (s : String) : List Nat := s.data.map Char.toNat

/-- Characters of a code point sequence, failing when a point is not a
unicode scalar value. -/
def ptsToChars : List Nat → Option (List Char)
  | [] => some []
  | n :: t =>
    if okPoint n then (ptsToChars t).map (fun cs => Char.ofNat n :: cs) else none

/-- A Lean string from a code point sequence, when every point is a scalar. -/
def ptsToStr (l : List Nat) : Option String := (ptsToChars l).map String.mk

/-- The six-character unicode escape \uXXXX used by json.dump. -/
def uEsc (n : Nat) : List Char :=
  ['\\', 'u', hexDigitChar (n / 4096 % 16), hexDigitChar (n / 256 % 16),
   hexDigitChar (n / 16 % 16), hexDigitChar (n % 16)]

/-- Escaping of one code point exactly as Python json.dump with
ensure_ascii=True: two-character escapes for quote, backslash and the five
control shorthands, the character itself when printable ASCII, a \uXXXX
escape otherwise (also for lone surrogates, as Python emits them), with a
surrogate pair above the basic plane. -/
def escChar (n : Nat) : List Char :=
  if n = 34 then ['\\', '"']
  else if n = 92 then ['\\', '\\']
  else if n = 8 then ['\\', 'b']
  else if n = 9 then ['\\', 't']
  else if n = 10 then ['\\', 'n']
  else if n = 12 then ['\\', 'f']
  else if n = 13 then ['\\', 'r']
  else if 32 ≤ n ∧ n ≤ 126 then [Char.ofNat n]
  else if n < 65536 then uEsc n
  else uEsc (55296 + (n - 65536) / 1024) ++ uEsc (56320 + (n - 65536) % 1024)

/-- Escaping of a whole string body, point by point. -/
def escString : List Nat → List Char
  | [] => []
  | n :: t => escChar n ++ escString t

/-- Decimal digits of a natural number (fuelled helper; any fuel above the
number itself is enough). -/
def natCharsF : Nat → Nat → List Char
  | 0, _ => []
  | f + 1, n =>
    if n < 10 then [digitChar n]
    else natCharsF f (n / 10) ++ [digitChar (n % 10)]

/-- Decimal digits of a natural number, most significant first. -/
def natChars (n : Nat) : List Char := natCharsF (n + 1) n

/-- Decimal rendering of an integer, as Python str(). -/
def intChars (i : Int) : List Char :=
  if i < 0 then '-' :: natChars i.natAbs else natChars i.natAbs

/-! ## The JSON data model

Integer numbers are interpreted; fraction/exponent/NaN/Infinity numerals
are carried as opaque tokens (the claims never inspect float values);
strings and object keys are code point sequences, as Python str. -/

inductive Json where
  | null : Json
  | bool : Bool → Json
  | num : Int → Json
  | flt : List Char → Json
  | str : List Nat → Json
  | arr : List Json → Json
  | obj : List (List Nat × Json) → Json

/-! ## Serialization, as json.dump with default options
(item separator ", ", key separator ": ", ensure_ascii=True). -/

mutual

def printValue : Json → List Char
  | .null => 'n' :: 'u' :: 'l' :: 'l' :: []
  | .bool true => 't' :: 'r' :: 'u' :: 'e' :: []
  | .bool false => 'f' :: 'a' :: 'l' :: 's' :: 'e' :: []
  | .num i => intChars i
  | .flt raw => raw
  | .str pts => '"' :: (escString pts ++ ['"'])
  | .arr xs => '[' :: (printItems xs ++ [']'])
  | .obj kvs => lbrace :: (printMembers kvs ++ [rbrace])

def printItems : List Json → List Char
  | [] => []
  | [x] => printValue x
  | x :: y :: t => printValue x ++ ',' :: ' ' :: printItems (y :: t)

def printMembers : List (List Nat × Json) → List Char
  | [] => []
  | [(k, v)] => '"' :: (escString k ++ '"' :: ':' :: ' ' :: printValue v)
  | (k, v) :: m :: t =>
    ('"' :: (escString k ++ '"' :: ':' :: ' ' :: printValue v))
      ++ ',' :: ' ' :: printMembers (m :: t)

end

/-- Serialization of a JSON value to text, as json.dump writes it. -/
def dumps (j : Json) : String := String.mk (printValue j)

/-! ## Parsing, as json.load with default options: the number grammar
rejects leading zeros and accepts fraction/exponent numerals and the NaN
and Infinity constants; the string decoder recombines surrogate pairs,
keeps lone surrogates as code points (as Python does), accepts both
hexadecimal cases, and rejects raw control characters and malformed
escapes; trailing data is rejected. -/

/-- Drop leading JSON whitespace. -/
def skipWs : List Char → List Char
  | [] => []
  | c :: t => if isWsB c then skipWs t else c :: t

/-- Prepend a decoded code point to the result of parsing the remainder of
a string body. -/
def consPt (n : Nat) (r : Option (List Nat × List Char)) :
    Option (List Nat × List Char) :=
  r.map (fun p => (n :: p.1, p.2))

/-- Parse the body of a JSON string up to its closing quote, returning the
decoded code points and the remaining input.  A \uXXXX high surrogate
followed by a \uXXXX low surrogate combines into one supplementary point;
otherwise the surrogate stays as a lone code point, exactly as Python's
decoder keeps it.  One unit of fuel is spent per decoded point, so any
fuel above the decoded length is enough. -/
def parseStringBody : Nat → List Char → Option (List Nat × List Char)
  | 0, _ => none
  | f + 1, l =>
    match l with
    | [] => none
    | c :: rest =>
      if c.toNat = 34 then some ([], rest)
      else if c.toNat = 92 then
        match rest with
        | [] => none
        | e :: t =>
          if e.toNat = 34 then consPt 34 (parseStringBody f t)
          else if e.toNat = 92 then consPt 92 (parseStringBody f t)
          else if e = '/' then consPt 47 (parseStringBody f t)
          else if e = 'b' then consPt 8 (parseStringBody f t)
          else if e = 'f' then consPt 12 (parseStringBody f t)
          else if e = 'n' then consPt 10 (parseStringBody f t)
          else if e = 'r' then consPt 13 (parseStringBody f t)
          else if e = 't' then consPt 9 (parseStringBody f t)
          else if e = 'u' then
            match t with
            | h1 :: h2 :: h3 :: h4 :: t2 =>
              match hexVal h1, hexVal h2, hexVal h3, hexVal h4 with
              | some a, some b, some c2, some d =>
                let n := a * 4096 + b * 256 + c2 * 16 + d
                if 55296 ≤ n ∧ n ≤ 56319 then
                  match t2 with
                  | b1 :: u1 :: t3 =>
                    if b1.toNat = 92 ∧ u1 = 'u' then
                      match t3 with
                      | g1 :: g2 :: g3 :: g4 :: t4 =>
                        match hexVal g1, hexVal g2, hexVal g3, hexVal g4 with
                        | some e1, some e2, some e3, some e4 =>
                          let m := e1 * 4096 + e2 * 256 + e3 * 16 + e4
                          if 56320 ≤ m ∧ m ≤ 57343 then
                            consPt (65536 + (n - 55296) * 1024 + (m - 56320))
                              (parseStringBody f t4)
                          else consPt n (parseStringBody f t2)
                        | _, _, _, _ => none
                      | _ => none
                    else consPt n (parseStringBody f t2)
                  | _ => consPt n (parseStringBody f t2)
                else consPt n (parseStringBody f t2)
              | _, _, _, _ => none
            | _ => none
          else none
      else if c.toNat < 32 then none
      else consPt c.toNat (parseStringBody f rest)

/-- Accumulate a run of decimal digits. -/
def parseNatAux : List Char → Nat → Nat × List Char
  | [], acc => (acc, [])
  | c :: t, acc =>
    if isDigitB c then parseNatAux t (acc * 10 + digitVal c) else (acc, c :: t)

/-- Value of a digit run. -/
def digitsVal (l : List Char) : Nat := (parseNatAux l 0).1

/-- Split off the maximal run of decimal digits. -/
def takeDigits : List Char → List Char × List Char
  | [] => ([], [])
  | c :: t =>
    if isDigitB c then
      let p := takeDigits t
      (c :: p.1, p.2)
    else ([], c :: t)

/-- A numeral starting with 0 followed by another digit; json.load rejects
such leading zeros. -/
def leadingZero : List Char → Bool
  | c :: d :: _ => decide (c.toNat = 48) && isDigitB d
  | _ => false

/-- Optional fraction part ".digits"; fails when the dot is present but no
digit follows. -/
def scanFrac : List Char → Option (List Char × List Char)
  | [] => some ([], [])
  | c :: r =>
    if c = '.' then
      match takeDigits r with
      | ([], _) => none
      | (fs, r2) => some ('.' :: fs, r2)
    else some ([], c :: r)

/-- Optional exponent part "e[sign]digits"; fails when the marker is
present but malformed. -/
def scanExp : List Char → Option (List Char × List Char)
  | [] => some ([], [])
  | e :: r =>
    if e = 'e' ∨ e = 'E' then
      match r with
      | [] => none
      | s :: r2 =>
        if s = '+' ∨ s = '-' then
          match takeDigits r2 with
          | ([], _) => none
          | (ds, r3) => some (e :: s :: ds, r3)
        else
          match takeDigits (s :: r2) with
          | ([], _) => none
          | (ds, r3) => some (e :: ds, r3)
    else some ([], e :: r)

/-- Scan a number token per the json.load grammar - an integer part with no
leading zero, then optional fraction and exponent.  A pure integer becomes
an interpreted value; anything with a fraction or exponent is kept as an
opaque float token. -/
def scanNumber (neg : Bool) (l : List Char) : Option (Json × List Char) :=
  match l with
  | [] => none
  | c :: _ =>
    if isDigitB c = false then none
    else if leadingZero l then none
    else
      let p := takeDigits l
      match scanFrac p.2 with
      | none => none
      | some (fr, r2) =>
        match scanExp r2 with
        | none => none
        | some (ex, r3) =>
          if fr = [] ∧ ex = [] then
            some (Json.num (if neg then -(digitsVal p.1 : Int) else (digitsVal p.1 : Int)), r3)
          else
            some (Json.flt ((if neg then ['-'] else []) ++ p.1 ++ (fr ++ ex)), r3)

mutual

def parseValue : Nat → List Char → Option (Json × List Char)
  | 0, _ => none
  | f + 1, l =>
    match skipWs l with
    | [] => none
    | c :: rest =>
      if c.toNat = 34 then
        match parseStringBody (rest.length + 1) rest with
        | some (pts, r) => some (Json.str pts, r)
        | none => none
      else if c = 't' then
        match rest with
        | 'r' :: 'u' :: 'e' :: r => some (Json.bool true, r)
        | _ => none
      else if c = 'f' then
        match rest with
        | 'a' :: 'l' :: 's' :: 'e' :: r => some (Json.bool false, r)
        | _ => none
      else if c = 'n' then
        match rest with
        | 'u' :: 'l' :: 'l' :: r => some (Json.null, r)
        | _ => none
      else if c = 'N' then
        match rest with
        | 'a' :: 'N' :: r => some (Json.flt ('N' :: 'a' :: 'N' :: []), r)
        | _ => none
      else if c = 'I' then
        match rest with
        | 'n' :: 'f' :: 'i' :: 'n' :: 'i' :: 't' :: 'y' :: r =>
          some (Json.flt ('I' :: 'n' :: 'f' :: 'i' :: 'n' :: 'i' :: 't' :: 'y' :: []), r)
        | _ => none
      else if c = '[' then
        match skipWs rest with
        | [] => none
        | c2 :: r =>
          if c2 = ']' then some (Json.arr [], r)
          else
            match parseItems f (c2 :: r) with
            | some (xs, r2) => some (Json.arr xs, r2)
            | none => none
      else if c = lbrace then
        match skipWs rest with
        | [] => none
        | c2 :: r =>
          if c2 = rbrace then some (Json.obj [], r)
          else
            match parseMembers f (c2 :: r) with
            | some (kvs, r2) => some (Json.obj kvs, r2)
            | none => none
      else if c = '-' then
        match rest with
        | [] => none
        | c2 :: r2 =>
          if c2 = 'I' then
            match r2 with
            | 'n' :: 'f' :: 'i' :: 'n' :: 'i' :: 't' :: 'y' :: r =>
              some (Json.flt ('-' :: 'I' :: 'n' :: 'f' :: 'i' :: 'n' :: 'i' :: 't' :: 'y' :: []), r)
            | _ => none
          else scanNumber true (c2 :: r2)
      else if isDigitB c then scanNumber false (c :: rest)
      else none

def parseItems : Nat → List Char → Option (List Json × List Char)
  | 0, _ => none
  | f + 1, l =>
    match parseValue f l with
    | none => none
    | some (v, r) =>
      match skipWs r with
      | [] => none
      | c :: r2 =>
        if c = ',' then
          match parseItems f r2 with
          | some (vs, r3) => some (v :: vs, r3)
          | none => none
        else if c = ']' then some ([v], r2)
        else none

def parseMembers : Nat → List Char → Option (List (List Nat × Json) × List Char)
  | 0, _ => none
  | f + 1, l =>
    match skipWs l with
    | [] => none
    | c :: rest =>
      if c.toNat = 34 then
        match parseStringBody (rest.length + 1) rest with
        | none => none
        | some (k, r1) =>
          match skipWs r1 with
          | [] => none
          | c2 :: r2 =>
            if c2 = ':' then
              match parseValue f r2 with
              | none => none
              | some (v, r3) =>
                match skipWs r3 with
                | [] => none
                | c3 :: r4 =>
                  if c3 = ',' then
                    match parseMembers f r4 with
                    | some (kvs, r5) => some ((k, v) :: kvs, r5)
                    | none => none
                  else if c3 = rbrace then some ([(k, v)], r4)
                  else none
            else none
      else none

end

/-- Deserialization of a JSON text, as json.load: parse one value, allow
surrounding whitespace, reject anything left over. -/
def loads (s : String) : Option Json :=
  match parseValue (s.data.length + 1) s.data with
  | some (j, r) => if skipWs r = [] then some j else none
  | none => none

/-! ## The data model: Cookie, CookieSet, SessionFile (spec section 3) -/

/-- A cookie record, with the attributes named by the data model: name,
value, domain, path, optional expiry timestamp, and the flags httpOnly,
secure, sameSite.  The field order matches the order in which the engine
reports the fields and in which they are serialized. -/
structure Cookie where
  name : String
  value : String
  domain : String
  path : String
  expires : Option Int
  httpOnly : Bool
  secure : Bool
  sameSite : String
deriving DecidableEq

/-- A CookieSet: an ordered sequence of cookie records. -/
def CookieSet := List Cookie

/-- The JSON object for one cookie, field for field in record order, the
expiry key omitted when absent. -/
def cookieToJson (c : Cookie) : Json :=
  Json.obj
    ([(strPts "name", Json.str (strPts c.name)),
      (strPts "value", Json.str (strPts c.value)),
      (strPts "domain", Json.str (strPts c.domain)),
      (strPts "path", Json.str (strPts c.path))]
      ++ (match c.expires with
          | some e => [(strPts "expires", Json.num e)]
          | none => [])
      ++ [(strPts "httpOnly", Json.bool c.httpOnly),
          (strPts "secure", Json.bool c.secure),
          (strPts "sameSite", Json.str (strPts c.sameSite))])

/-- The JSON array for a CookieSet, order preserved. -/
def cookieSetToJson (cs : List Cookie) : Json := Json.arr (cs.map cookieToJson)

/-- The expected record shape of one serialized cookie: the decoder that
inverts cookieToJson.  A JSON value of any other shape is not a cookie
record. -/
def jsonToCookie (j : Json) : Option Cookie :=
  match j with
  | Json.obj ((k1, Json.str n) :: (k2, Json.str v) :: (k3, Json.str d) ::
      (k4, Json.str p) :: rest) =>
    if k1 = strPts "name" ∧ k2 = strPts "value" ∧ k3 = strPts "domain" ∧
        k4 = strPts "path" then
      match ptsToStr n, ptsToStr v, ptsToStr d, ptsToStr p with
      | some ns, some vs, some ds, some ps =>
        match rest with
        | (k5, Json.num e) :: (k6, Json.bool ho) :: (k7, Json.bool sec) ::
            (k8, Json.str ss) :: [] =>
          if k5 = strPts "expires" ∧ k6 = strPts "httpOnly" ∧
              k7 = strPts "secure" ∧ k8 = strPts "sameSite" then
            (ptsToStr ss).map (fun sss => ⟨ns, vs, ds, ps, some e, ho, sec, sss⟩)
          else none
        | (k6, Json.bool ho) :: (k7, Json.bool sec) :: (k8, Json.str ss) :: [] =>
          if k6 = strPts "httpOnly" ∧ k7 = strPts "secure" ∧
              k8 = strPts "sameSite" then
            (ptsToStr ss).map (fun sss => ⟨ns, vs, ds, ps, none, ho, sec, sss⟩)
          else none
        | _ => none
      | _, _, _, _ => none
    else none
  | _ => none

/-- Decode a list of serialized cookie records, failing if any element is
not of the expected shape. -/
def decodeCookies : List Json → Option (List Cookie)
  | [] => some []
  | j :: t =>
    match jsonToCookie j, decodeCookies t with
    | some c, some cs => some (c :: cs)
    | _, _ => none

/-- The expected record shape of a serialized CookieSet: a JSON array of
cookie records. -/
def jsonToCookieSet (j : Json) : Option (List Cookie) :=
  match j with
  | Json.arr xs => decodeCookies xs
  | _ => none
/-! ## The Session Store over a file system (cookie.py lines 14-21)

The file system is an association list from paths to file contents in
which the most recent write for a path shadows older entries, so a write
replaces the visible file content at that path wholesale. -/

/-- The file-system state: paths mapped to text contents. -/
def FS := List (String × String)

/-- The visible content of the file at a path, if one exists. -/
def readFile (fs : List (String × String)) (p : String) : Option String :=
  (fs.find? (fun e => decide (e.1 = p))).map (fun e => e.2)

/-- save(CookieSet, path): serialize field for field with json.dump and
overwrite whatever was at the path (cookie.py lines 14-15, open with
mode w). -/
def save (fs : List (String × String)) (p : String) (cs : List Cookie) :
    List (String × String) :=
  (p, dumps (cookieSetToJson cs)) :: fs

/-- The error taxonomy of the spec (section 7). -/
inductive Err where
  | engineUnavailable : Err
  | ioError : Err
  | formatError : Err
deriving DecidableEq

/-- load(path): open the file (IOError when it is missing, cookie.py
line 19) and parse its content with json.load (a parse failure is the
FormatError of the taxonomy, line 20).  json.load returns whatever JSON
value the file holds; no record-shape check happens here. -/
def load (fs : List (String × String)) (p : String) : Except Err Json :=
  match readFile fs p with
  | none => Except.error Err.ioError
  | some s =>
    match loads s with
    | none => Except.error Err.formatError
    | some j => Except.ok j

/-! ## The Browsing Engine model

Modelled from the spec: the engine (contexts, pages, cookie jars,
last-write-wins injection) is an external collaborator of the repository;
sections 2, 4 and 6 of the spec fix the behaviour embedded here. -/

/-- The identity of a cookie inside a jar: its (name, domain, path)
triple. -/
def keyOf (c : Cookie) : String × String × String := (c.name, c.domain, c.path)

/-- Modelled from the spec: writing one cookie into a jar under engine
semantics - the entry with the same (name, domain, path) identity is
replaced in place, otherwise the cookie is appended. -/
def upsert : List Cookie → Cookie → List Cookie
  | [], c => [c]
  | d :: t, c => if keyOf d = keyOf c then c :: t else d :: upsert t c

/-- restore(context, CookieSet): inject every cookie of the set into the
jar, in the order stored, each write following engine last-write-wins
semantics (cookie.py line 21, new_context.add_cookies). -/
def restore (jar : List Cookie) (cs : List Cookie) : List Cookie :=
  cs.foldl upsert jar

/-- The first cookie with a given identity in a jar. -/
def findCookie (k : String × String × String) (jar : List Cookie) :
    Option Cookie :=
  jar.find? (fun c => decide (keyOf c = k))

/-- Modelled from the spec: an isolated browsing context of the engine,
holding its own cookie jar. -/
structure BrowserContext where
  isOpen : Bool
  jar : List Cookie
deriving DecidableEq

/-- An anchor element of the rendered page, exposing its href. -/
structure Anchor where
  href : String
deriving DecidableEq

/-- The state visible to one script run: whether the engine connection is
alive, whether the disk accepts writes, the launched browser, its
contexts and pages, the file system, and the anchors of the page being
visited. -/
structure World where
  engineUp : Bool
  diskOk : Bool
  browserOpen : Bool
  contexts : List BrowserContext
  pages : List Bool
  fs : List (String × String)
  anchors : List Anchor
deriving DecidableEq

/-- Modelled from the spec: stopping the engine at the end of the
with-block releases every handle - the browser, every context and every
page (spec section 9, implicit automatic resource cleanup). -/
def stopAll (w : World) : World :=
  { w with
    browserOpen := false,
    contexts := w.contexts.map (fun c => { c with isOpen := false }),
    pages := w.pages.map (fun _ => false) }

/-- Modelled from the spec: launching the browser, fallible when the
engine connection is lost. -/
def launch (w : World) : Except Err World :=
  if w.engineUp then Except.ok { w with browserOpen := true }
  else Except.error Err.engineUnavailable

/-- Modelled from the spec: creating a fresh context with an empty jar,
returning its handle. -/
def newContext (w : World) : Except Err (Nat × World) :=
  if w.engineUp && w.browserOpen then
    Except.ok (w.contexts.length,
      { w with contexts := w.contexts ++ [{ isOpen := true, jar := [] }] })
  else Except.error Err.engineUnavailable

/-- Modelled from the spec: opening a page in an open context. -/
def newPage (w : World) (i : Nat) : Except Err (Nat × World) :=
  if w.engineUp && w.browserOpen then
    match w.contexts[i]? with
    | some ctx =>
      if ctx.isOpen then
        Except.ok (w.pages.length, { w with pages := w.pages ++ [true] })
      else Except.error Err.engineUnavailable
    | none => Except.error Err.engineUnavailable
  else Except.error Err.engineUnavailable

/-- Modelled from the spec: navigating an open page; the navigation itself
is owned by the engine and leaves the modelled state unchanged. -/
def gotoPage (w : World) (p : Nat) : Except Err World :=
  if w.engineUp && w.browserOpen then
    match w.pages[p]? with
    | some true => Except.ok w
    | _ => Except.error Err.engineUnavailable
  else Except.error Err.engineUnavailable

/-- capture(context): request the full cookie list from an open context
(cookie.py line 10, context.cookies()).  The set is returned exactly as
the engine reports it and the state is returned untouched; the call fails
with EngineUnavailable when the connection is lost or the context is
closed. -/
def capture (w : World) (i : Nat) : Except Err (List Cookie × World) :=
  if w.engineUp then
    match w.contexts[i]? with
    | some ctx =>
      if ctx.isOpen then Except.ok (ctx.jar, w)
      else Except.error Err.engineUnavailable
    | none => Except.error Err.engineUnavailable
  else Except.error Err.engineUnavailable

/-- The save step as the script performs it: open for writing (IOError
when the disk refuses the write) and dump the serialized set. -/
def saveOp (w : World) (p : String) (cs : List Cookie) : Except Err World :=
  if w.diskOk then Except.ok { w with fs := save w.fs p cs }
  else Except.error Err.ioError

/-- The load step as the script performs it. -/
def loadOp (w : World) (p : String) : Except Err Json := load w.fs p

/-- Modelled from the spec: add_cookies on an open context - the payload
must have the CookieSet record shape, and every record is injected in
order with last-write-wins identity semantics (cookie.py line 21). -/
def addCookiesOp (w : World) (i : Nat) (payload : Json) : Except Err World :=
  if w.engineUp && w.browserOpen then
    match w.contexts[i]? with
    | some ctx =>
      if ctx.isOpen then
        match jsonToCookieSet payload with
        | some cs =>
          Except.ok
            { w with contexts :=
                w.contexts.set i { ctx with jar := restore ctx.jar cs } }
        | none => Except.error Err.formatError
      else Except.error Err.engineUnavailable
    | none => Except.error Err.engineUnavailable
  else Except.error Err.engineUnavailable

/-- Modelled from the spec: browser.close releases the browser and every
context and page it owns. -/
def closeBrowser (w : World) : Except Err World :=
  if w.engineUp then Except.ok (stopAll w) else Except.error Err.engineUnavailable

/-- The path the cookie script uses. -/
def cookiesPath : String := "cookies.json"

/-- The body of cookie.py, step for step in source order: launch, first
context and page, navigate, capture, save, second context, load,
add_cookies, second page, navigate, close.  The first failing step
surfaces its error and no later step runs. -/
def cookieScriptBody (w0 : World) : World × Option Err :=
  match launch w0 with
  | Except.error e => (w0, some e)
  | Except.ok w1 =>
    match newContext w1 with
    | Except.error e => (w1, some e)
    | Except.ok (c1, w2) =>
      match newPage w2 c1 with
      | Except.error e => (w2, some e)
      | Except.ok (p1, w3) =>
        match gotoPage w3 p1 with
        | Except.error e => (w3, some e)
        | Except.ok w4 =>
          match capture w4 c1 with
          | Except.error e => (w4, some e)
          | Except.ok (cs, w5) =>
            match saveOp w5 cookiesPath cs with
            | Except.error e => (w5, some e)
            | Except.ok w6 =>
              match newContext w6 with
              | Except.error e => (w6, some e)
              | Except.ok (c2, w7) =>
                match loadOp w7 cookiesPath with
                | Except.error e => (w7, some e)
                | Except.ok saved =>
                  match addCookiesOp w7 c2 saved with
                  | Except.error e => (w7, some e)
                  | Except.ok w8 =>
                    match newPage w8 c2 with
                    | Except.error e => (w8, some e)
                    | Except.ok (p2, w9) =>
                      match gotoPage w9 p2 with
                      | Except.error e => (w9, some e)
                      | Except.ok w10 =>
                        match closeBrowser w10 with
                        | Except.error e => (w10, some e)
                        | Except.ok w11 => (w11, none)

/-- cookie.py as a whole: the body runs inside the async_playwright
with-block, whose exit stops the engine and releases every handle on
every path, error or not. -/
def cookieScript (w : World) : World × Option Err :=
  (stopAll (cookieScriptBody w).1, (cookieScriptBody w).2)

/-- The DOM evaluation of link.py lines 9-13: collect every anchor href
and keep the truthy ones - for strings, exactly the non-empty ones. -/
def linksEval (anchors : List Anchor) : List String :=
  (anchors.map Anchor.href).filter (fun h => !(h == ""))

/-- The body of get_all_links (link.py lines 3-15): launch, page, navigate,
evaluate, close, return the hrefs. -/
def getAllLinksBody (w0 : World) : (World × Option Err) × Except Err (List String) :=
  match launch w0 with
  | Except.error e => ((w0, some e), Except.error e)
  | Except.ok w1 =>
    match newContext w1 with
    | Except.error e => ((w1, some e), Except.error e)
    | Except.ok (c1, w2) =>
      match newPage w2 c1 with
      | Except.error e => ((w2, some e), Except.error e)
      | Except.ok (p1, w3) =>
        match gotoPage w3 p1 with
        | Except.error e => ((w3, some e), Except.error e)
        | Except.ok w4 =>
          let hrefs := linksEval w4.anchors
          match closeBrowser w4 with
          | Except.error e => ((w4, some e), Except.error e)
          | Except.ok w5 => ((w5, none), Except.ok hrefs)

/-- get_all_links as a whole, inside the sync_playwright with-block. -/
def get_all_links (w : World) : (World × Option Err) × Except Err (List String) :=
  ((stopAll (getAllLinksBody w).1.1, (getAllLinksBody w).1.2),
   (getAllLinksBody w).2)

/-- The body of html.py lines 3-16: launch, context, page, navigate, read
the server HTML, wait, read the client HTML, close.  The reads are owned
by the engine and leave the modelled state unchanged. -/
def htmlScriptBody (w0 : World) : World × Option Err :=
  match launch w0 with
  | Except.error e => (w0, some e)
  | Except.ok w1 =>
    match newContext w1 with
    | Except.error e => (w1, some e)
    | Except.ok (c1, w2) =>
      match newPage w2 c1 with
      | Except.error e => (w2, some e)
      | Except.ok (p1, w3) =>
        match gotoPage w3 p1 with
        | Except.error e => (w3, some e)
        | Except.ok w4 =>
          match closeBrowser w4 with
          | Except.error e => (w4, some e)
          | Except.ok w5 => (w5, none)

/-- html.py as a whole, inside the async_playwright with-block. -/
def htmlScript (w : World) : World × Option Err :=
  (stopAll (htmlScriptBody w).1, (htmlScriptBody w).2)

/-- Every handle of a world is released: the browser is closed, every
context is closed, every page is closed. -/
def allClosed (w : World) : Bool :=
  !w.browserOpen && w.contexts.all (fun c => !c.isOpen)
    && w.pages.all (fun p => !p)


/-! ## Character facts -/

/-- The code point of a character avoids the surrogate range. -/
theorem char_toNat_valid (c : Char) :
    c.toNat < 55296 ∨ (57344 ≤ c.toNat ∧ c.toNat < 1114112) := by
  have h := c.valid
  simp [UInt32.isValidChar, Nat.isValidChar] at h
  rcases h with h | h
  · left; exact h
  · right; exact h

/-- Converting a valid code point to a character and back is the identity. -/
theorem char_toNat_ofNat (n : Nat)
    (h : n < 55296 ∨ (57344 ≤ n ∧ n < 1114112)) : (Char.ofNat n).toNat = n := by
  have hv : Nat.isValidChar n := by
    rcases h with h | h
    · exact Or.inl h
    · exact Or.inr ⟨by omega, h.2⟩
  rw [Char.ofNat, dif_pos hv]
  rfl

theorem okPoint_iff (n : Nat) :
    okPoint n = true ↔ (n < 55296 ∨ (57344 ≤ n ∧ n < 1114112)) := by
  simp [okPoint]

theorem okPoint_toNat (c : Char) : okPoint c.toNat = true :=
  (okPoint_iff c.toNat).mpr (char_toNat_valid c)

theorem digitChar_toNat : ∀ m, m < 10 → (digitChar m).toNat = 48 + m := by decide

theorem isDigitB_digitChar : ∀ m, m < 10 → isDigitB (digitChar m) = true := by decide

theorem digitVal_digitChar : ∀ m, m < 10 → digitVal (digitChar m) = m := by decide

theorem hexVal_hexDigitChar : ∀ m, m < 16 → hexVal (hexDigitChar m) = some m := by decide

/-- Input positions safe after a number token: whatever follows may not
extend the numeral - no digit, dot or exponent marker. -/
def numSafe : List Char → Bool
  | [] => true
  | c :: _ => !(isDigitB c) && !(c == '.') && !(c == 'e') && !(c == 'E')

theorem numSafe_facts (c : Char) (l : List Char) (h : numSafe (c :: l) = true) :
    isDigitB c = false ∧ c ≠ '.' ∧ c ≠ 'e' ∧ c ≠ 'E' := by
  simpa [numSafe, Bool.and_eq_true, Bool.not_eq_true', and_assoc] using h

/-! ## Decimal numerals round-trip -/

theorem natCharsF_irrel : ∀ n f g, n < f → n < g → natCharsF f n = natCharsF g n := by
  intro n
  induction n using Nat.strong_induction_on with
  | _ n ih =>
    intro f g hf hg
    cases f with
    | zero => omega
    | succ f =>
      cases g with
      | zero => omega
      | succ g =>
        simp only [natCharsF]
        by_cases h : n < 10
        · simp [h]
        · have hdiv : n / 10 < n := Nat.div_lt_self (by omega) (by omega)
          simp only [h, if_false]
          rw [ih (n / 10) hdiv f g (by omega) (by omega)]

theorem natChars_eq (n : Nat) :
    natChars n =
      if n < 10 then [digitChar n]
      else natChars (n / 10) ++ [digitChar (n % 10)] := by
  unfold natChars
  rw [natCharsF]
  by_cases h : n < 10
  · simp [h]
  · have hdiv : n / 10 < n := Nat.div_lt_self (by omega) (by omega)
    simp only [h, if_false]
    rw [natCharsF_irrel (n / 10) n (n / 10 + 1) hdiv (by omega)]

theorem natChars_head : ∀ n, ∃ c t, natChars n = c :: t ∧ isDigitB c = true := by
  intro n
  induction n using Nat.strong_induction_on with
  | _ n ih =>
    rw [natChars_eq]
    by_cases h : n < 10
    · exact ⟨digitChar n, [], by simp [h], isDigitB_digitChar n h⟩
    · have hdiv : n / 10 < n := Nat.div_lt_self (by omega) (by omega)
      obtain ⟨c, t, he, hd⟩ := ih (n / 10) hdiv
      exact ⟨c, t ++ [digitChar (n % 10)], by simp [h, he], hd⟩

theorem natChars_all_digits : ∀ n c, c ∈ natChars n → isDigitB c = true := by
  intro n
  induction n using Nat.strong_induction_on with
  | _ n ih =>
    intro c hc
    rw [natChars_eq] at hc
    by_cases h : n < 10
    · simp only [h, if_true, List.mem_singleton] at hc
      rw [hc]
      exact isDigitB_digitChar n h
    · have hdiv : n / 10 < n := Nat.div_lt_self (by omega) (by omega)
      simp only [h, if_false, List.mem_append, List.mem_singleton] at hc
      rcases hc with hc | hc
      · exact ih (n / 10) hdiv c hc
      · rw [hc]
        exact isDigitB_digitChar (n % 10) (by omega)

theorem natChars_head_pos :
    ∀ n, 1 ≤ n → ∃ c t, natChars n = c :: t ∧ isDigitB c = true ∧ ¬(c.toNat = 48) := by
  intro n
  induction n using Nat.strong_induction_on with
  | _ n ih =>
    intro hn
    rw [natChars_eq]
    by_cases h : n < 10
    · refine ⟨digitChar n, [], by simp [h], isDigitB_digitChar n h, ?_⟩
      rw [digitChar_toNat n h]
      omega
    · have hdiv : n / 10 < n := Nat.div_lt_self (by omega) (by omega)
      obtain ⟨c, t, he, hd, hz⟩ := ih (n / 10) hdiv (by omega)
      exact ⟨c, t ++ [digitChar (n % 10)], by simp [h, he], hd, hz⟩

theorem parseNatAux_natChars :
    ∀ n a rest,
      parseNatAux (natChars n ++ rest) a =
        parseNatAux rest (a * 10 ^ (natChars n).length + n) := by
  intro n
  induction n using Nat.strong_induction_on with
  | _ n ih =>
    intro a rest
    rw [natChars_eq n]
    by_cases h : n < 10
    · simp only [h, if_true, List.cons_append, List.nil_append,
        List.length_cons, List.length_nil]
      rw [parseNatAux]
      simp [isDigitB_digitChar n h, digitVal_digitChar n h]
    · have hdiv : n / 10 < n := Nat.div_lt_self (by omega) (by omega)
      simp only [h, if_false, List.append_assoc, List.singleton_append,
        List.length_append, List.length_cons, List.length_nil]
      rw [ih (n / 10) hdiv]
      rw [parseNatAux]
      simp only [isDigitB_digitChar (n % 10) (by omega), if_true,
        digitVal_digitChar (n % 10) (by omega)]
      congr 1
      have h10 : n / 10 * 10 + n % 10 = n := by omega
      have hring :
          (a * 10 ^ (natChars (n / 10)).length + n / 10) * 10 + n % 10 =
            a * (10 ^ (natChars (n / 10)).length * 10) + (n / 10 * 10 + n % 10) := by
        ring
      rw [hring, h10, ← pow_succ]

theorem digitsVal_natChars (n : Nat) : digitsVal (natChars n) = n := by
  unfold digitsVal
  have h := parseNatAux_natChars n 0 []
  rw [List.append_nil] at h
  rw [h]
  simp [parseNatAux]

theorem takeDigits_append :
    ∀ (l rest : List Char), (∀ c ∈ l, isDigitB c = true) → numSafe rest = true →
      takeDigits (l ++ rest) = (l, rest) := by
  intro l
  induction l with
  | nil =>
    intro rest hl hr
    cases rest with
    | nil => rfl
    | cons c t =>
      obtain ⟨hd, _⟩ := numSafe_facts c t hr
      simp [takeDigits, hd]
  | cons c t ih =>
    intro rest hl hr
    have hc : isDigitB c = true := hl c (by simp)
    simp only [List.cons_append, takeDigits, hc, if_true, List.append_eq]
    rw [ih rest (fun d hd => hl d (by simp [hd])) hr]

theorem leadingZero_natChars (n : Nat) (rest : List Char)
    (h : numSafe rest = true) : leadingZero (natChars n ++ rest) = false := by
  by_cases hn : n < 10
  · have he : natChars n = [digitChar n] := by rw [natChars_eq]; simp [hn]
    rw [he]
    cases rest with
    | nil => rfl
    | cons r0 rr =>
      obtain ⟨hd, _⟩ := numSafe_facts r0 rr h
      simp [leadingZero, hd]
  · obtain ⟨c, t, he, hd, hz⟩ := natChars_head_pos n (by omega)
    rw [he, List.cons_append]
    cases htr : t ++ rest with
    | nil => rfl
    | cons d dr => simp [leadingZero, hz]

theorem scanFrac_safe (l : List Char) (h : numSafe l = true) :
    scanFrac l = some ([], l) := by
  cases l with
  | nil => rfl
  | cons c t =>
    obtain ⟨_, hdot, _, _⟩ := numSafe_facts c t h
    simp [scanFrac, hdot]

theorem scanExp_safe (l : List Char) (h : numSafe l = true) :
    scanExp l = some ([], l) := by
  cases l with
  | nil => rfl
  | cons c t =>
    obtain ⟨_, _, he, hE⟩ := numSafe_facts c t h
    simp [scanExp, he, hE]

theorem scanNumber_natChars (neg : Bool) (n : Nat) (rest : List Char)
    (h : numSafe rest = true) :
    scanNumber neg (natChars n ++ rest) =
      some (Json.num (if neg then -(n : Int) else (n : Int)), rest) := by
  have hlz := leadingZero_natChars n rest h
  have htd := takeDigits_append (natChars n) rest (natChars_all_digits n) h
  obtain ⟨c, t, he, hd⟩ := natChars_head n
  rw [he, List.cons_append] at hlz htd ⊢
  simp only [scanNumber, hd, Bool.true_eq_false, if_false, hlz, htd]
  rw [scanFrac_safe rest h]
  simp only
  rw [scanExp_safe rest h]
  have hdv : digitsVal (c :: t) = n := by rw [← he]; exact digitsVal_natChars n
  simp [hdv]

/-! ## String escaping round-trips -/

theorem parse_u_step (f : Nat) (h1 h2 h3 h4 : Char) (a b c d : Nat)
    (t2 : List Char) (hv1 : hexVal h1 = some a) (hv2 : hexVal h2 = some b)
    (hv3 : hexVal h3 = some c) (hv4 : hexVal h4 = some d) :
    parseStringBody (f + 1) ('\\' :: 'u' :: h1 :: h2 :: h3 :: h4 :: t2) =
      (let n := a * 4096 + b * 256 + c * 16 + d
       if 55296 ≤ n ∧ n ≤ 56319 then
         match t2 with
         | b1 :: u1 :: t3 =>
           if b1.toNat = 92 ∧ u1 = 'u' then
             match t3 with
             | g1 :: g2 :: g3 :: g4 :: t4 =>
               match hexVal g1, hexVal g2, hexVal g3, hexVal g4 with
               | some e1, some e2, some e3, some e4 =>
                 let m := e1 * 4096 + e2 * 256 + e3 * 16 + e4
                 if 56320 ≤ m ∧ m ≤ 57343 then
                   consPt (65536 + (n - 55296) * 1024 + (m - 56320))
                     (parseStringBody f t4)
                 else consPt n (parseStringBody f t2)
               | _, _, _, _ => none
             | _ => none
           else consPt n (parseStringBody f t2)
         | _ => consPt n (parseStringBody f t2)
       else consPt n (parseStringBody f t2)) := by
  rw [parseStringBody]
  simp only [hv1, hv2, hv3, hv4]
  rfl

theorem parse_u_single (n f : Nat) (tail : List Char) (hlt : n < 65536)
    (hs1 : ¬(55296 ≤ n ∧ n ≤ 56319)) :
    parseStringBody (f + 1) (uEsc n ++ tail) =
      consPt n (parseStringBody f tail) := by
  have hrec : n / 4096 % 16 * 4096 + n / 256 % 16 * 256 + n / 16 % 16 * 16 + n % 16 = n := by
    omega
  simp only [uEsc, List.cons_append, List.nil_append]
  rw [parse_u_step f _ _ _ _ _ _ _ _ tail
    (hexVal_hexDigitChar (n / 4096 % 16) (by omega))
    (hexVal_hexDigitChar (n / 256 % 16) (by omega))
    (hexVal_hexDigitChar (n / 16 % 16) (by omega))
    (hexVal_hexDigitChar (n % 16) (by omega))]
  simp only [hrec, hs1, if_false]

theorem parse_u_pair_step (f : Nat) (h1 h2 h3 h4 g1 g2 g3 g4 : Char)
    (a b c d e1 e2 e3 e4 : Nat) (tail : List Char)
    (hv1 : hexVal h1 = some a) (hv2 : hexVal h2 = some b)
    (hv3 : hexVal h3 = some c) (hv4 : hexVal h4 = some d)
    (hv5 : hexVal g1 = some e1) (hv6 : hexVal g2 = some e2)
    (hv7 : hexVal g3 = some e3) (hv8 : hexVal g4 = some e4)
    (hHr : 55296 ≤ a * 4096 + b * 256 + c * 16 + d ∧
      a * 4096 + b * 256 + c * 16 + d ≤ 56319)
    (hLr : 56320 ≤ e1 * 4096 + e2 * 256 + e3 * 16 + e4 ∧
      e1 * 4096 + e2 * 256 + e3 * 16 + e4 ≤ 57343) :
    parseStringBody (f + 1)
      ('\\' :: 'u' :: h1 :: h2 :: h3 :: h4 :: '\\' :: 'u' :: g1 :: g2 :: g3 :: g4 :: tail) =
      consPt (65536 + (a * 4096 + b * 256 + c * 16 + d - 55296) * 1024 +
        (e1 * 4096 + e2 * 256 + e3 * 16 + e4 - 56320)) (parseStringBody f tail) := by
  rw [parse_u_step f h1 h2 h3 h4 a b c d _ hv1 hv2 hv3 hv4]
  simp only [hHr, and_self, if_true]
  have hb1 : ('\\').toNat = 92 ∧ ('u') = 'u' := by decide
  simp only [hb1, and_self, if_true]
  simp only [hv5, hv6, hv7, hv8]
  simp only [hLr, and_self, if_true]

theorem parse_u_pair (n f : Nat) (tail : List Char) (h1 : 65536 ≤ n)
    (h2 : n < 1114112) :
    parseStringBody (f + 1)
      ((uEsc (55296 + (n - 65536) / 1024) ++ uEsc (56320 + (n - 65536) % 1024)) ++ tail) =
      consPt n (parseStringBody f tail) := by
  generalize hH : 55296 + (n - 65536) / 1024 = H
  generalize hL : 56320 + (n - 65536) % 1024 = L
  simp only [uEsc, List.cons_append, List.nil_append, List.append_assoc]
  rw [parse_u_pair_step f _ _ _ _ _ _ _ _ _ _ _ _ _ _ _ _ tail
    (hexVal_hexDigitChar (H / 4096 % 16) (by omega))
    (hexVal_hexDigitChar (H / 256 % 16) (by omega))
    (hexVal_hexDigitChar (H / 16 % 16) (by omega))
    (hexVal_hexDigitChar (H % 16) (by omega))
    (hexVal_hexDigitChar (L / 4096 % 16) (by omega))
    (hexVal_hexDigitChar (L / 256 % 16) (by omega))
    (hexVal_hexDigitChar (L / 16 % 16) (by omega))
    (hexVal_hexDigitChar (L % 16) (by omega))
    (by omega) (by omega)]
  have hs1 : H / 4096 % 16 * 4096 + H / 256 % 16 * 256 + H / 16 % 16 * 16 + H % 16 = H := by
    omega
  have hs2 : L / 4096 % 16 * 4096 + L / 256 % 16 * 256 + L / 16 % 16 * 16 + L % 16 = L := by
    omega
  rw [hs1, hs2]
  have hn : 65536 + (H - 55296) * 1024 + (L - 56320) = n := by omega
  rw [hn]

theorem escStep (n : Nat) (f : Nat) (tail : List Char) (hok : okPoint n = true) :
    parseStringBody (f + 1) (escChar n ++ tail) = consPt n (parseStringBody f tail) := by
  have hval := (okPoint_iff n).mp hok
  by_cases h34 : n = 34
  · subst h34; rfl
  by_cases h92 : n = 92
  · subst h92; rfl
  by_cases h8 : n = 8
  · subst h8; rfl
  by_cases h9 : n = 9
  · subst h9; rfl
  by_cases h10 : n = 10
  · subst h10; rfl
  by_cases h12 : n = 12
  · subst h12; rfl
  by_cases h13 : n = 13
  · subst h13; rfl
  by_cases hpr : 32 ≤ n ∧ n ≤ 126
  · have hesc : escChar n = [Char.ofNat n] := by
      simp only [escChar, h34, h92, h8, h9, h10, h12, h13, hpr, and_self,
        if_false, if_true]
    have ht : (Char.ofNat n).toNat = n := char_toNat_ofNat n (by omega)
    rw [hesc, List.singleton_append]
    have hlt : ¬(n < 32) := by omega
    simp only [parseStringBody, ht, h34, h92, hlt, if_false]
  by_cases hbmp : n < 65536
  · have hesc : escChar n = uEsc n := by
      simp only [escChar, h34, h92, h8, h9, h10, h12, h13, hpr, hbmp, if_false, if_true]
    rw [hesc, parse_u_single n f tail hbmp (by omega)]
  · have hesc : escChar n =
        uEsc (55296 + (n - 65536) / 1024) ++ uEsc (56320 + (n - 65536) % 1024) := by
      simp only [escChar, h34, h92, h8, h9, h10, h12, h13, hpr, hbmp, if_false, if_true]
    rw [hesc, parse_u_pair n f tail (by omega) (by omega)]

theorem parseStr :
    ∀ (pts : List Nat) (f : Nat) (rest : List Char),
      pts.all okPoint = true → pts.length < f →
      parseStringBody f (escString pts ++ '"' :: rest) = some (pts, rest) := by
  intro pts
  induction pts with
  | nil =>
    intro f rest hok h
    cases f with
    | zero => omega
    | succ f => rfl
  | cons n t ih =>
    intro f rest hok h
    rw [List.all_cons, Bool.and_eq_true] at hok
    obtain ⟨hn, ht⟩ := hok
    cases f with
    | zero => omega
    | succ f =>
      rw [escString, List.append_assoc, escStep n f _ hn,
        ih f rest ht (by simp at h; omega)]
      rfl

/-! ## Helpers for the value round-trip -/

theorem stringMk_data (s : String) : String.mk s.data = s := by
  cases s; rfl

theorem skipWs_cons_not (c : Char) (l : List Char) (h : isWsB c = false) :
    skipWs (c :: l) = c :: l := by
  rw [skipWs, if_neg (by simp [h])]

theorem escChar_len (n : Nat) : 1 ≤ (escChar n).length := by
  simp only [escChar]
  split_ifs <;> simp [uEsc]

theorem escString_len : ∀ pts : List Nat, pts.length ≤ (escString pts).length := by
  intro pts
  induction pts with
  | nil => simp [escString]
  | cons n t ih =>
    have h := escChar_len n
    simp only [escString, List.length_append, List.length_cons]
    omega

/-! ## Parser dispatch lemmas -/

theorem parseValue_quote (f : Nat) (rest : List Char) :
    parseValue (f + 1) ('"' :: rest) =
      match parseStringBody (rest.length + 1) rest with
      | some (pts, r) => some (Json.str pts, r)
      | none => none := rfl

theorem parseValue_true (f : Nat) (r : List Char) :
    parseValue (f + 1) ('t' :: 'r' :: 'u' :: 'e' :: r) = some (Json.bool true, r) := rfl

theorem parseValue_false (f : Nat) (r : List Char) :
    parseValue (f + 1) ('f' :: 'a' :: 'l' :: 's' :: 'e' :: r) = some (Json.bool false, r) := rfl

theorem parseValue_null (f : Nat) (r : List Char) :
    parseValue (f + 1) ('n' :: 'u' :: 'l' :: 'l' :: r) = some (Json.null, r) := rfl

theorem parseValue_arr (f : Nat) (rest : List Char) :
    parseValue (f + 1) ('[' :: rest) =
      match skipWs rest with
      | [] => none
      | c2 :: r =>
        if c2 = ']' then some (Json.arr [], r)
        else
          match parseItems f (c2 :: r) with
          | some (xs, r2) => some (Json.arr xs, r2)
          | none => none := rfl

theorem parseValue_obj (f : Nat) (rest : List Char) :
    parseValue (f + 1) (lbrace :: rest) =
      match skipWs rest with
      | [] => none
      | c2 :: r =>
        if c2 = rbrace then some (Json.obj [], r)
        else
          match parseMembers f (c2 :: r) with
          | some (kvs, r2) => some (Json.obj kvs, r2)
          | none => none := rfl

theorem parseValue_dash (f : Nat) (rest : List Char) :
    parseValue (f + 1) ('-' :: rest) =
      match rest with
      | [] => none
      | c2 :: r2 =>
        if c2 = 'I' then
          match r2 with
          | 'n' :: 'f' :: 'i' :: 'n' :: 'i' :: 't' :: 'y' :: r =>
            some (Json.flt ('-' :: 'I' :: 'n' :: 'f' :: 'i' :: 'n' :: 'i' :: 't' :: 'y' :: []), r)
          | _ => none
        else scanNumber true (c2 :: r2) := rfl

theorem parseValue_space (f : Nat) (l : List Char) :
    parseValue f (' ' :: l) = parseValue f l := by
  cases f with
  | zero => rfl
  | succ f => rfl

theorem parseItems_space (f : Nat) (l : List Char) :
    parseItems f (' ' :: l) = parseItems f l := by
  cases f with
  | zero => rfl
  | succ f => simp only [parseItems, parseValue_space]

theorem parseMembers_space (f : Nat) (l : List Char) :
    parseMembers f (' ' :: l) = parseMembers f l := by
  cases f with
  | zero => rfl
  | succ f => rfl

theorem parseValue_digit (f : Nat) (c : Char) (l : List Char) (hd : isDigitB c = true) :
    parseValue (f + 1) (c :: l) = scanNumber false (c :: l) := by
  have hn : 48 ≤ c.toNat ∧ c.toNat ≤ 57 := by
    simpa [isDigitB, Bool.and_eq_true, decide_eq_true_eq] using hd
  have hws : isWsB c = false := by simp [isWsB]; omega
  have h34 : ¬(c.toNat = 34) := by omega
  have ht : ¬(c = 't') := by intro h; rw [h] at hn; exact absurd hn (by decide)
  have hf : ¬(c = 'f') := by intro h; rw [h] at hn; exact absurd hn (by decide)
  have hnu : ¬(c = 'n') := by intro h; rw [h] at hn; exact absurd hn (by decide)
  have hN : ¬(c = 'N') := by intro h; rw [h] at hn; exact absurd hn (by decide)
  have hI : ¬(c = 'I') := by intro h; rw [h] at hn; exact absurd hn (by decide)
  have hbk : ¬(c = '[') := by intro h; rw [h] at hn; exact absurd hn (by decide)
  have hlb : ¬(c = lbrace) := by intro h; rw [h] at hn; exact absurd hn (by decide)
  have hda : ¬(c = '-') := by intro h; rw [h] at hn; exact absurd hn (by decide)
  simp only [parseValue]
  rw [skipWs, if_neg (by simp [hws])]
  simp only [h34, ht, hf, hnu, hN, hI, hbk, hlb, hda, hd, if_false, if_true]

/-- Facts about a decimal digit head that drive the parser dispatch. -/
theorem digit_head_facts (c : Char) (hd : isDigitB c = true) :
    isWsB c = false ∧ c ≠ ']' ∧ c ≠ rbrace := by
  have hn : 48 ≤ c.toNat ∧ c.toNat ≤ 57 := by
    simpa [isDigitB, Bool.and_eq_true, decide_eq_true_eq] using hd
  refine ⟨by simp [isWsB]; omega, ?_, ?_⟩
  · intro h; rw [h] at hn; exact absurd hn (by decide)
  · intro h; rw [h] at hn; exact absurd hn (by decide)

theorem literal_head_ok (c : Char) (t l : List Char) (he : l = c :: t)
    (hok : (isWsB c = false ∧ c ≠ ']' ∧ c ≠ rbrace)) :
    ∃ c2 t2, l = c2 :: t2 ∧ isWsB c2 = false ∧ c2 ≠ ']' ∧ c2 ≠ rbrace :=
  ⟨c, t, he, hok.1, hok.2.1, hok.2.2⟩

/-! ## Well-formed values: what json.dump emits for the data the program
serializes (all code points scalar, no float payloads). -/

mutual

def wfValue : Json → Bool
  | .null => true
  | .bool _ => true
  | .num _ => true
  | .flt _ => false
  | .str pts => pts.all okPoint
  | .arr xs => wfItems xs
  | .obj kvs => wfMembers kvs

def wfItems : List Json → Bool
  | [] => true
  | x :: t => wfValue x && wfItems t

def wfMembers : List (List Nat × Json) → Bool
  | [] => true
  | (k, v) :: t => k.all okPoint && wfValue v && wfMembers t

end

theorem printValue_head (j : Json) (hw : wfValue j = true) :
    ∃ c t, printValue j = c :: t ∧ isWsB c = false ∧ c ≠ ']' ∧ c ≠ rbrace := by
  cases j with
  | null => exact literal_head_ok 'n' _ _ rfl (by decide)
  | bool b =>
    cases b with
    | true => exact literal_head_ok 't' _ _ rfl (by decide)
    | false => exact literal_head_ok 'f' _ _ rfl (by decide)
  | num i =>
    by_cases h : i < 0
    · exact literal_head_ok '-' (natChars i.natAbs) _
        (by simp [printValue, intChars, h]) (by decide)
    · obtain ⟨c, t, he, hd⟩ := natChars_head i.natAbs
      exact literal_head_ok c t _ (by simp [printValue, intChars, h, he])
        (digit_head_facts c hd)
  | flt raw => simp [wfValue] at hw
  | str pts => exact literal_head_ok '"' _ _ rfl (by decide)
  | arr xs => exact literal_head_ok '[' _ _ rfl (by decide)
  | obj kvs => exact literal_head_ok lbrace _ _ rfl (by decide)

theorem printItems_head (x : Json) (t : List Json) (hw : wfValue x = true) :
    ∃ c t2, printItems (x :: t) = c :: t2 ∧ isWsB c = false ∧ c ≠ ']' ∧ c ≠ rbrace := by
  obtain ⟨c, t2, he, h1, h2, h3⟩ := printValue_head x hw
  cases t with
  | nil => exact ⟨c, t2, by simp [printItems, he], h1, h2, h3⟩
  | cons y t3 =>
    exact ⟨c, t2 ++ ',' :: ' ' :: printItems (y :: t3), by simp [printItems, he], h1, h2, h3⟩

theorem printMembers_head (k : List Nat) (v : Json) (t : List (List Nat × Json)) :
    ∃ t2, printMembers ((k, v) :: t) = '"' :: t2 := by
  cases t with
  | nil => exact ⟨_, rfl⟩
  | cons m t3 => exact ⟨_, rfl⟩

/-! ## Fuel bounds for the parser -/

mutual

def pvBound : Json → Nat
  | .null => 1
  | .bool _ => 1
  | .num _ => 1
  | .flt _ => 0
  | .str _ => 1
  | .arr xs => 1 + piBound xs
  | .obj kvs => 1 + pmBound kvs

def piBound : List Json → Nat
  | [] => 0
  | x :: t => 1 + pvBound x + piBound t

def pmBound : List (List Nat × Json) → Nat
  | [] => 0
  | (k, v) :: t => 1 + pvBound v + pmBound t

end

theorem pvBound_pos (j : Json) (hw : wfValue j = true) : 1 ≤ pvBound j := by
  cases j with
  | flt raw => simp [wfValue] at hw
  | null => simp [pvBound]
  | bool b => simp [pvBound]
  | num i => simp [pvBound]
  | str pts => simp [pvBound]
  | arr xs => simp [pvBound]
  | obj kvs => simp [pvBound]

theorem parse_print_master : ∀ fuel : Nat,
    (∀ j rest, wfValue j = true → pvBound j ≤ fuel → numSafe rest = true →
      parseValue fuel (printValue j ++ rest) = some (j, rest)) ∧
    (∀ xs rest, xs ≠ [] → wfItems xs = true → piBound xs ≤ fuel →
      parseItems fuel (printItems xs ++ ']' :: rest) = some (xs, rest)) ∧
    (∀ kvs rest, kvs ≠ [] → wfMembers kvs = true → pmBound kvs ≤ fuel →
      parseMembers fuel (printMembers kvs ++ rbrace :: rest) = some (kvs, rest)) := by
  intro fuel
  induction fuel using Nat.strong_induction_on with
  | _ fuel ih =>
    refine ⟨?_, ?_, ?_⟩
    · intro j rest hw hb hns
      have hpos := pvBound_pos j hw
      cases fuel with
      | zero => omega
      | succ f =>
        cases j with
        | null => exact parseValue_null f rest
        | bool b =>
          cases b with
          | true => exact parseValue_true f rest
          | false => exact parseValue_false f rest
        | flt raw => simp [wfValue] at hw
        | num i =>
          by_cases hneg : i < 0
          · have hpv : printValue (Json.num i) = '-' :: natChars i.natAbs := by
              simp [printValue, intChars, hneg]
            obtain ⟨c, t, he, hd⟩ := natChars_head i.natAbs
            have hCI : ¬(c = 'I') := by
              intro h; rw [h] at hd; exact absurd hd (by decide)
            rw [hpv, List.cons_append, parseValue_dash, he, List.cons_append]
            dsimp only
            rw [if_neg hCI, ← List.cons_append, ← he,
              scanNumber_natChars true i.natAbs rest hns]
            have hval : (if true then -((i.natAbs : Nat) : Int)
                else ((i.natAbs : Nat) : Int)) = i := by
              rw [if_pos rfl]
              omega
            rw [hval]
          · have hpv : printValue (Json.num i) = natChars i.natAbs := by
              simp [printValue, intChars, hneg]
            obtain ⟨c, t, he, hd⟩ := natChars_head i.natAbs
            rw [hpv, he, List.cons_append, parseValue_digit f c _ hd,
              ← List.cons_append, ← he, scanNumber_natChars false i.natAbs rest hns]
            have hval : (if false then -((i.natAbs : Nat) : Int)
                else ((i.natAbs : Nat) : Int)) = i := by
              rw [if_neg (by decide : ¬(false = true))]
              omega
            rw [hval]
        | str pts =>
          have hok : pts.all okPoint = true := by simpa [wfValue] using hw
          have hpv : printValue (Json.str pts) = '"' :: (escString pts ++ ['"']) := rfl
          rw [hpv, List.cons_append, parseValue_quote, List.append_assoc,
            List.singleton_append]
          rw [parseStr pts _ rest hok (by
            have h1 := escString_len pts
            simp only [List.length_append, List.length_cons]
            omega)]
        | arr xs =>
          cases xs with
          | nil =>
            have hpv : printValue (Json.arr []) ++ rest = '[' :: ']' :: rest := rfl
            rw [hpv, parseValue_arr]
            rfl
          | cons x t =>
            have hwi : wfItems (x :: t) = true := by simpa [wfValue] using hw
            have hwx : wfValue x = true := by
              rw [wfItems, Bool.and_eq_true] at hwi
              exact hwi.1
            have hpv : printValue (Json.arr (x :: t)) = '[' :: (printItems (x :: t) ++ [']']) := rfl
            rw [hpv, List.cons_append, parseValue_arr, List.append_assoc,
              List.singleton_append]
            obtain ⟨c, t2, he, h1, h2, h3⟩ := printItems_head x t hwx
            rw [he, List.cons_append, skipWs_cons_not c _ h1]
            dsimp only
            rw [if_neg h2, ← List.cons_append, ← he]
            rw [(ih f (by omega)).2.1 (x :: t) rest (by simp) hwi
              (by simp only [pvBound] at hb; omega)]
        | obj kvs =>
          cases kvs with
          | nil =>
            have hpv : printValue (Json.obj []) ++ rest = lbrace :: rbrace :: rest := rfl
            rw [hpv, parseValue_obj, skipWs_cons_not rbrace rest (by decide)]
            dsimp only
            rw [if_pos rfl]
          | cons kv t =>
            obtain ⟨k, v⟩ := kv
            have hwm : wfMembers ((k, v) :: t) = true := by simpa [wfValue] using hw
            have hpv : printValue (Json.obj ((k, v) :: t)) =
                lbrace :: (printMembers ((k, v) :: t) ++ [rbrace]) := rfl
            rw [hpv, List.cons_append, parseValue_obj, List.append_assoc,
              List.singleton_append]
            obtain ⟨t2, he⟩ := printMembers_head k v t
            rw [he, List.cons_append, skipWs_cons_not '"' _ (by decide)]
            dsimp only
            rw [if_neg (by decide : ¬('"' = rbrace)), ← List.cons_append, ← he]
            rw [(ih f (by omega)).2.2 ((k, v) :: t) rest (by simp) hwm
              (by simp only [pvBound] at hb; omega)]
    · intro xs rest hne hw hb
      cases xs with
      | nil => exact absurd rfl hne
      | cons x t =>
        rw [wfItems, Bool.and_eq_true] at hw
        obtain ⟨hwx, hwt⟩ := hw
        cases fuel with
        | zero => simp only [piBound] at hb; omega
        | succ f =>
          simp only [parseItems]
          cases t with
          | nil =>
            have hpi : printItems [x] = printValue x := rfl
            rw [hpi]
            rw [(ih f (by omega)).1 x (']' :: rest) hwx
              (by simp only [piBound] at hb; omega) rfl]
            dsimp only
            rw [skipWs_cons_not ']' rest (by decide)]
            dsimp only
            rw [if_neg (by decide : ¬(']' = ',')), if_pos rfl]
          | cons y t2 =>
            have hpi : printItems (x :: y :: t2) =
                printValue x ++ ',' :: ' ' :: printItems (y :: t2) := rfl
            rw [hpi, List.append_assoc]
            simp only [List.cons_append]
            rw [(ih f (by omega)).1 x (',' :: ' ' :: (printItems (y :: t2) ++ ']' :: rest)) hwx
              (by simp only [piBound] at hb; omega) rfl]
            dsimp only
            rw [skipWs_cons_not ',' _ (by decide)]
            dsimp only
            rw [if_pos rfl, parseItems_space]
            rw [(ih f (by omega)).2.1 (y :: t2) rest (by simp) hwt
              (by simp only [piBound] at hb ⊢; omega)]
    · intro kvs rest hne hw hb
      cases kvs with
      | nil => exact absurd rfl hne
      | cons kv t =>
        obtain ⟨k, v⟩ := kv
        rw [wfMembers, Bool.and_eq_true, Bool.and_eq_true] at hw
        obtain ⟨⟨hk, hv⟩, hwt⟩ := hw
        cases fuel with
        | zero => simp only [pmBound] at hb; omega
        | succ f =>
          simp only [parseMembers]
          cases t with
          | nil =>
            have hpm : printMembers [(k, v)] =
                '"' :: (escString k ++ '"' :: ':' :: ' ' :: printValue v) := rfl
            rw [hpm, List.cons_append, skipWs_cons_not '"' _ (by decide)]
            dsimp only
            rw [if_pos (by decide : ('"').toNat = 34), List.append_assoc]
            simp only [List.cons_append]
            rw [parseStr k _ _ hk (by
              have h1 := escString_len k
              simp only [List.length_append, List.length_cons]
              omega)]
            dsimp only
            rw [skipWs_cons_not ':' _ (by decide)]
            dsimp only
            rw [if_pos rfl, parseValue_space]
            rw [(ih f (by omega)).1 v (rbrace :: rest) hv
              (by simp only [pmBound] at hb; omega) rfl]
            dsimp only
            rw [skipWs_cons_not rbrace _ (by decide)]
            dsimp only
            rw [if_neg (by decide : ¬(rbrace = ',')), if_pos rfl]
          | cons m t2 =>
            have hpm : printMembers ((k, v) :: m :: t2) =
                ('"' :: (escString k ++ '"' :: ':' :: ' ' :: printValue v))
                  ++ ',' :: ' ' :: printMembers (m :: t2) := rfl
            rw [hpm, List.append_assoc, List.cons_append, skipWs_cons_not '"' _ (by decide)]
            dsimp only
            rw [if_pos (by decide : ('"').toNat = 34), List.append_assoc]
            simp only [List.cons_append]
            rw [parseStr k _ _ hk (by
              have h1 := escString_len k
              simp only [List.length_append, List.length_cons]
              omega)]
            dsimp only
            rw [skipWs_cons_not ':' _ (by decide)]
            dsimp only
            rw [if_pos rfl, parseValue_space]
            rw [(ih f (by omega)).1 v (',' :: ' ' :: (printMembers (m :: t2) ++ rbrace :: rest)) hv
              (by simp only [pmBound] at hb; omega) rfl]
            dsimp only
            rw [skipWs_cons_not ',' _ (by decide)]
            dsimp only
            rw [if_pos rfl, parseMembers_space]
            rw [(ih f (by omega)).2.2 (m :: t2) rest (by simp) hwt
              (by simp only [pmBound] at hb ⊢; omega)]

theorem bound_le_len : ∀ n : Nat,
    (∀ j, pvBound j ≤ n → pvBound j ≤ (printValue j).length) ∧
    (∀ xs, piBound xs ≤ n → piBound xs ≤ (printItems xs).length + 1) ∧
    (∀ kvs, pmBound kvs ≤ n → pmBound kvs ≤ (printMembers kvs).length + 1) := by
  intro n
  induction n using Nat.strong_induction_on with
  | _ n ih =>
    refine ⟨?_, ?_, ?_⟩
    · intro j hb
      cases j with
      | null => simp [pvBound, printValue]
      | bool b => cases b <;> simp [pvBound, printValue]
      | num i =>
        obtain ⟨c, t, he, hd⟩ := natChars_head i.natAbs
        by_cases hneg : i < 0 <;> simp [pvBound, printValue, intChars, hneg, he]
      | flt raw => simp [pvBound]
      | str pts => simp [pvBound, printValue]
      | arr xs =>
        have hsub : piBound xs < n := by simp only [pvBound] at hb; omega
        have hx := (ih (piBound xs) hsub).2.1 xs le_rfl
        simp only [pvBound, printValue, List.length_cons, List.length_append,
          List.length_nil]
        omega
      | obj kvs =>
        have hsub : pmBound kvs < n := by simp only [pvBound] at hb; omega
        have hx := (ih (pmBound kvs) hsub).2.2 kvs le_rfl
        simp only [pvBound, printValue, List.length_cons, List.length_append,
          List.length_nil]
        omega
    · intro xs hb
      cases xs with
      | nil => simp [piBound]
      | cons x t =>
        cases t with
        | nil =>
          have hsub : pvBound x < n := by simp only [piBound] at hb; omega
          have hx := (ih (pvBound x) hsub).1 x le_rfl
          simp only [piBound, printItems]
          omega
        | cons y t2 =>
          have hsubv : pvBound x < n := by simp only [piBound] at hb; omega
          have hsubi : piBound (y :: t2) < n := by simp only [piBound] at hb ⊢; omega
          have hx := (ih (pvBound x) hsubv).1 x le_rfl
          have hys := (ih (piBound (y :: t2)) hsubi).2.1 (y :: t2) le_rfl
          simp only [piBound, printItems, List.length_append, List.length_cons]
          simp only [piBound] at hys
          omega
    · intro kvs hb
      cases kvs with
      | nil => simp [pmBound]
      | cons kv t =>
        obtain ⟨k, v⟩ := kv
        cases t with
        | nil =>
          have hsub : pvBound v < n := by simp only [pmBound] at hb; omega
          have hx := (ih (pvBound v) hsub).1 v le_rfl
          simp only [pmBound, printMembers, List.length_append, List.length_cons]
          omega
        | cons m t2 =>
          have hsubv : pvBound v < n := by simp only [pmBound] at hb; omega
          have hsubm : pmBound (m :: t2) < n := by simp only [pmBound] at hb ⊢; omega
          have hx := (ih (pvBound v) hsubv).1 v le_rfl
          have hms := (ih (pmBound (m :: t2)) hsubm).2.2 (m :: t2) le_rfl
          simp only [pmBound, printMembers, List.length_append, List.length_cons]
          simp only [pmBound] at hms
          omega

/-- json.load inverts json.dump on every well-formed JSON value: the central
round-trip fact behind the Session Store. -/
theorem loads_dumps (j : Json) (hw : wfValue j = true) : loads (dumps j) = some j := by
  unfold loads dumps
  have hdata : (String.mk (printValue j)).data = printValue j := rfl
  rw [hdata]
  have hble := (bound_le_len (pvBound j)).1 j le_rfl
  have h := (parse_print_master ((printValue j).length + 1)).1 j [] hw
    (by omega) rfl
  rw [List.append_nil] at h
  rw [h]
  rfl

/-! ## Cookie records round-trip through their JSON shape -/

theorem strPts_all (s : String) : (strPts s).all okPoint = true := by
  simp only [strPts, List.all_eq_true]
  intro n hn
  obtain ⟨c, hc, rfl⟩ := List.mem_map.mp hn
  exact okPoint_toNat c

theorem ptsToChars_strPts (s : String) : ptsToChars (strPts s) = some s.data := by
  rw [strPts]
  induction s.data with
  | nil => rfl
  | cons c t ih =>
    simp [ptsToChars, okPoint_toNat c, ih, Char.ofNat_toNat]

theorem ptsToStr_strPts (s : String) : ptsToStr (strPts s) = some s := by
  rw [ptsToStr, ptsToChars_strPts]
  simp [stringMk_data]

theorem wf_cookieToJson (c : Cookie) : wfValue (cookieToJson c) = true := by
  obtain ⟨n, v, d, p, e, ho, sec, ss⟩ := c
  cases e with
  | none => simp [cookieToJson, wfValue, wfMembers, strPts_all]
  | some ev => simp [cookieToJson, wfValue, wfMembers, strPts_all]

theorem wf_cookieSetToJson (cs : List Cookie) : wfValue (cookieSetToJson cs) = true := by
  simp only [cookieSetToJson, wfValue]
  induction cs with
  | nil => rfl
  | cons c t ih => simp [wfItems, wf_cookieToJson c, ih]

theorem jsonToCookie_cookieToJson (c : Cookie) :
    jsonToCookie (cookieToJson c) = some c := by
  obtain ⟨n, v, d, p, e, ho, sec, ss⟩ := c
  cases e with
  | none => simp [cookieToJson, jsonToCookie, ptsToStr_strPts]
  | some ev => simp [cookieToJson, jsonToCookie, ptsToStr_strPts]

theorem decodeCookies_map (cs : List Cookie) :
    decodeCookies (cs.map cookieToJson) = some cs := by
  induction cs with
  | nil => rfl
  | cons c t ih =>
    simp only [List.map_cons, decodeCookies, jsonToCookie_cookieToJson c, ih]

theorem jsonToCookieSet_cookieSetToJson (cs : List Cookie) :
    jsonToCookieSet (cookieSetToJson cs) = some cs := by
  simp only [cookieSetToJson, jsonToCookieSet, decodeCookies_map]

/-! ## File-system facts -/

theorem readFile_save (fs : List (String × String)) (p : String) (cs : List Cookie) :
    readFile (save fs p cs) p = some (dumps (cookieSetToJson cs)) := by
  unfold save readFile
  rw [List.find?_cons_of_pos _ (by simp)]
  rfl

theorem readFile_save_other (fs : List (String × String)) (p q : String)
    (cs : List Cookie) (h : q ≠ p) :
    readFile (save fs p cs) q = readFile fs q := by
  unfold save readFile
  rw [List.find?_cons_of_neg _ (by simp [Ne.symm h])]

/-! ## Jar semantics: last write wins -/

/-- The last cookie of a list carrying a given identity. -/
def lastMatch (k : String × String × String) : List Cookie → Option Cookie
  | [] => none
  | c :: t =>
    match lastMatch k t with
    | some d => some d
    | none => if keyOf c = k then some c else none

theorem findCookie_cons_pos (d : Cookie) (t : List Cookie)
    (k : String × String × String) (h : keyOf d = k) :
    findCookie k (d :: t) = some d := by
  unfold findCookie
  rw [List.find?_cons_of_pos _ (by simp [h])]

theorem findCookie_cons_neg (d : Cookie) (t : List Cookie)
    (k : String × String × String) (h : ¬(keyOf d = k)) :
    findCookie k (d :: t) = findCookie k t := by
  unfold findCookie
  rw [List.find?_cons_of_neg _ (by simp [h])]

theorem findCookie_upsert (jar : List Cookie) (c : Cookie)
    (k : String × String × String) :
    findCookie k (upsert jar c) = if keyOf c = k then some c else findCookie k jar := by
  induction jar with
  | nil =>
    by_cases h : keyOf c = k
    · rw [if_pos h]
      exact findCookie_cons_pos c [] k h
    · rw [if_neg h]
      exact findCookie_cons_neg c [] k h
  | cons d t ih =>
    by_cases hdc : keyOf d = keyOf c
    · have hup : upsert (d :: t) c = c :: t := by simp [upsert, hdc]
      rw [hup]
      by_cases hck : keyOf c = k
      · rw [if_pos hck, findCookie_cons_pos c t k hck]
      · have hdk : ¬(keyOf d = k) := by rw [hdc]; exact hck
        rw [if_neg hck, findCookie_cons_neg c t k hck, findCookie_cons_neg d t k hdk]
    · have hup : upsert (d :: t) c = d :: upsert t c := by simp [upsert, hdc]
      rw [hup]
      by_cases hdk : keyOf d = k
      · have hck : ¬(keyOf c = k) := by intro h; rw [← h] at hdk; exact hdc hdk
        rw [if_neg hck, findCookie_cons_pos d _ k hdk, findCookie_cons_pos d t k hdk]
      · rw [findCookie_cons_neg d _ k hdk, findCookie_cons_neg d t k hdk, ih]

theorem restore_cons (jar : List Cookie) (c : Cookie) (t : List Cookie) :
    restore jar (c :: t) = restore (upsert jar c) t := rfl

/-! ## Claim theorems -/

/-- C1: for every CookieSet and every path, saving the set and then loading
from that path returns exactly the serialized CookieSet value - which decodes
field for field, order preserved, back to the original set. -/
theorem c1_save_load_roundtrip (fs : List (String × String)) (p : String)
    (cs : List Cookie) :
    load (save fs p cs) p = Except.ok (cookieSetToJson cs) ∧
      jsonToCookieSet (cookieSetToJson cs) = some cs := by
  constructor
  · unfold load
    rw [readFile_save]
    dsimp only
    rw [loads_dumps _ (wf_cookieSetToJson cs)]
  · exact jsonToCookieSet_cookieSetToJson cs

/-- C2: restore injects every cookie of the set in stored order with no
deduplication against the jar: for any identity, the jar afterwards holds the
last injected cookie with that identity, and identities the set never
mentions keep their previous binding. -/
theorem c2_restore_last_write_wins (jar cs : List Cookie)
    (k : String × String × String) :
    findCookie k (restore jar cs) =
      (lastMatch k cs).elim (findCookie k jar) some := by
  induction cs generalizing jar with
  | nil => rfl
  | cons c t ih =>
    rw [restore_cons, ih (upsert jar c)]
    cases hlt : lastMatch k t with
    | some d => simp [lastMatch, hlt]
    | none =>
      simp only [lastMatch, hlt]
      rw [findCookie_upsert]
      by_cases hck : keyOf c = k
      · simp [hck]
      · simp [hck]

/-- C3: loading from a path at which no file exists fails with IOError. -/
theorem c3_load_missing_ioerror (fs : List (String × String)) (p : String)
    (h : readFile fs p = none) :
    load fs p = Except.error Err.ioError := by
  unfold load
  rw [h]

/-- Witness for C3: scenario B of the spec, an empty file system and the
path missing.json. -/
theorem c3_load_missing_ioerror_witness :
    load ([] : List (String × String)) "missing.json" = Except.error Err.ioError :=
  c3_load_missing_ioerror [] "missing.json" rfl

/-- C4, counterexample: a file holding the text 42 is valid JSON but not of
the CookieSet record shape, yet load returns it without any error - so load
does not fail with FormatError on every non-CookieSet-shaped content. -/
theorem c4_counterexample :
    loads "42" = some (Json.num 42) ∧
      jsonToCookieSet (Json.num 42) = none ∧
      load [("p", "42")] "p" = Except.ok (Json.num 42) := by
  refine ⟨rfl, rfl, rfl⟩

/-- C4, corrected: load surfaces FormatError exactly at the json.load parse
boundary.  Whenever the file at the path holds some content, load fails with
FormatError when that content does not parse as JSON (such as the text - not
json -), and returns the parsed value without error whenever it does parse,
whatever its shape: no record-shape check happens in load. -/
theorem c4_parse_boundary (fs : List (String × String)) (p s : String)
    (hread : readFile fs p = some s) :
    (loads s = none → load fs p = Except.error Err.formatError) ∧
    (∀ j, loads s = some j → load fs p = Except.ok j) := by
  constructor
  · intro hparse
    unfold load
    rw [hread]
    dsimp only
    rw [hparse]
  · intro j hparse
    unfold load
    rw [hread]
    dsimp only
    rw [hparse]

/-- Witness for C4 as corrected: scenario C of the spec, a file holding the
text - not json -, beside a file whose content is the number 42. -/
theorem c4_parse_boundary_witness :
    load [("p", "not json")] "p" = Except.error Err.formatError ∧
      load [("p", "42")] "p" = Except.ok (Json.num 42) :=
  ⟨(c4_parse_boundary [("p", "not json")] "p" "not json" rfl).1 rfl,
   (c4_parse_boundary [("p", "42")] "p" "42" rfl).2 (Json.num 42) rfl⟩

/-- C5: saving the same CookieSet twice to the same path leaves byte-identical
file content after each call, namely the serialization of the set. -/
theorem c5_save_idempotent (fs : List (String × String)) (p : String)
    (cs : List Cookie) :
    readFile (save (save fs p cs) p cs) p = readFile (save fs p cs) p ∧
      readFile (save fs p cs) p = some (dumps (cookieSetToJson cs)) := by
  refine ⟨?_, readFile_save fs p cs⟩
  rw [readFile_save, readFile_save]

/-- C6: save replaces the file at the path wholesale - the content after save
is exactly the serialization of the set, whatever the previous file system
held at that path - and leaves every other path untouched. -/
theorem c6_save_overwrites (fs fs2 : List (String × String)) (p q : String)
    (cs : List Cookie) :
    readFile (save fs p cs) p = some (dumps (cookieSetToJson cs)) ∧
      readFile (save fs p cs) p = readFile (save fs2 p cs) p ∧
      (q ≠ p → readFile (save fs p cs) q = readFile fs q) := by
  refine ⟨readFile_save fs p cs, ?_, fun h => readFile_save_other fs p q cs h⟩
  rw [readFile_save, readFile_save]

/-- Witness for C6: overwriting a file that previously held other content. -/
theorem c6_save_overwrites_witness :
    readFile (save [("cookies.json", "old")] "cookies.json" []) "cookies.json" =
        some (dumps (cookieSetToJson [])) ∧
      readFile (save [("cookies.json", "old")] "cookies.json" []) "other" =
        readFile [("cookies.json", "old")] "other" :=
  ⟨(c6_save_overwrites [("cookies.json", "old")] [] "cookies.json" "other" []).1,
   (c6_save_overwrites [("cookies.json", "old")] [] "cookies.json" "other" []).2.2
     (by decide)⟩

theorem allClosed_stopAll (w : World) : allClosed (stopAll w) = true := by
  simp [allClosed, stopAll, List.all_map, List.all_eq_true]

/-- C7: capture on an open context of a live engine returns the cookie list
exactly as the engine holds it and returns the world unchanged - no side
effect beyond the read. -/
theorem c7_capture_exact_no_side_effect (w : World) (i : Nat)
    (ctx : BrowserContext) (h1 : w.engineUp = true)
    (h2 : w.contexts[i]? = some ctx) (h3 : ctx.isOpen = true) :
    capture w i = Except.ok (ctx.jar, w) := by
  unfold capture
  rw [if_pos h1, h2]
  dsimp only
  rw [if_pos h3]

/-- Witness for C7: scenario A of the spec - a context holding the single
cookie sid=abc for example.com. -/
theorem c7_capture_witness :
    capture
      ⟨true, true, true,
        [⟨true, [⟨"sid", "abc", "example.com", "/", none, false, false, "Lax"⟩]⟩],
        [], [], []⟩ 0 =
      Except.ok ([⟨"sid", "abc", "example.com", "/", none, false, false, "Lax"⟩],
        ⟨true, true, true,
          [⟨true, [⟨"sid", "abc", "example.com", "/", none, false, false, "Lax"⟩]⟩],
          [], [], []⟩) :=
  c7_capture_exact_no_side_effect
    ⟨true, true, true,
      [⟨true, [⟨"sid", "abc", "example.com", "/", none, false, false, "Lax"⟩]⟩],
      [], [], []⟩
    0
    ⟨true, [⟨"sid", "abc", "example.com", "/", none, false, false, "Lax"⟩]⟩
    rfl rfl rfl

/-- C8: failures are never recovered inside the cookie script: with the
engine down the very first step surfaces EngineUnavailable and nothing runs;
with the engine up but the disk unwritable the save step surfaces IOError and
no later step runs - the world still holds exactly one context and the file
system is untouched. -/
theorem c8_failures_propagate (w : World) :
    (w.engineUp = false → cookieScriptBody w = (w, some Err.engineUnavailable)) ∧
    (w.engineUp = true → w.diskOk = false →
      cookieScriptBody w =
        ({ w with
            browserOpen := true,
            contexts := w.contexts ++ [⟨true, []⟩],
            pages := w.pages ++ [true] }, some Err.ioError)) := by
  constructor
  · intro h
    simp [cookieScriptBody, launch, h]
  · intro h1 h2
    simp [cookieScriptBody, launch, newContext, newPage, gotoPage, capture,
      saveOp, h1, h2, List.getElem?_concat_length]

/-- Witness for C8: the two failure modes at concrete worlds. -/
theorem c8_failures_propagate_witness :
    cookieScriptBody ⟨false, true, false, [], [], [], []⟩ =
        (⟨false, true, false, [], [], [], []⟩, some Err.engineUnavailable) ∧
      cookieScriptBody ⟨true, false, false, [], [], [], []⟩ =
        (⟨true, false, true, [⟨true, []⟩], [true], [], []⟩,
          some Err.ioError) :=
  ⟨(c8_failures_propagate _).1 rfl, (c8_failures_propagate _).2 rfl rfl⟩

/-- C9: on every exit path of each of the three scripts - error or success -
every acquired handle is released: the browser, every context and every page
are closed in the final world. -/
theorem c9_handles_released (w : World) :
    allClosed (cookieScript w).1 = true ∧
      allClosed (get_all_links w).1.1 = true ∧
      allClosed (htmlScript w).1 = true := by
  refine ⟨?_, ?_, ?_⟩ <;>
    simp [cookieScript, get_all_links, htmlScript, allClosed_stopAll]

/-- C10: every element of the list returned by get_all_links is a non-empty
href, and a string is in the result exactly when some anchor has it as its
href and it is truthy (non-empty). -/
theorem c10_links_truthy (w : World) (r : List String) (h : String)
    (hok : (get_all_links w).2 = Except.ok r) :
    h ∈ r ↔ h ∈ w.anchors.map Anchor.href ∧ h ≠ "" := by
  have hr : r = linksEval w.anchors := by
    by_cases he : w.engineUp = true
    · simp [get_all_links, getAllLinksBody, launch, newContext, newPage, gotoPage,
        closeBrowser, he, List.getElem?_concat_length] at hok
      exact hok.symm
    · simp [get_all_links, getAllLinksBody, launch, he] at hok
  subst hr
  simp only [linksEval, List.mem_filter, Bool.not_eq_true', beq_eq_false_iff_ne,
    ne_eq]

/-- Witness for C10: a page with an empty href and the href x. -/
theorem c10_links_truthy_witness :
    ("x" ∈ ["x"] ↔
      "x" ∈ (([⟨""⟩, ⟨"x"⟩] : List Anchor).map Anchor.href) ∧ "x" ≠ "") :=
  c10_links_truthy ⟨true, true, false, [], [], [], [⟨""⟩, ⟨"x"⟩]⟩ ["x"] "x" rfl
